import Mathlib

/-!
Shallow embedding of the instance-data staging subsystem of
`src/webrender/src/renderer/vertex.rs`:

* `InstancePool` (`add` / `finish` / `reset`) together with an explicit
  device-memory model tracking the instance slots written into each VBO;
* `VertexDataTexture.update` (texture resize / padding policy), with the
  device calls it issues recorded as an event trace;
* the base-VAO setup performed by `VertexContextHub::new`;
* the instance-buffer binding state of `VertexContextRef`.

Machine-integer remarks: `InstanceBufferIndex` is `u16` in the source and
`InstancePool::add` converts `used_chunks.len()` with `try_into().unwrap()`
(a panic above `u16::MAX`); buffer indices are modelled as `Nat`, which is
faithful below that bound.  The `u16` wrap-around in the quad-index
generation of `VertexContextHub::new` is modelled explicitly with `% 65536`.
-/

/-- Model of `VertexUsageHint` from the device layer (`Static` / `Dynamic` / `Stream`). -/
inductive VertexUsageHint
  | hintStatic
  | hintDynamic
  | hintStream
deriving DecidableEq, Repr

/-- Constant `VERTICES_PER_INSTANCE` (four vertices of a quad). -/
def VERTICES_PER_INSTANCE : Nat := 4

/-- Constant `VERTEX_TEXTURE_EXTRA_ROWS` from `vertex.rs`. -/
def VERTEX_TEXTURE_EXTRA_ROWS : Nat := 10

/-- Model of `MappedChunk<T>` from `vertex.rs`.  The raw write pointer `ptr` is
modelled by `ptrBuf`: the id of the VBO whose mapped storage the pointer
addresses (writes through the pointer become writes to that buffer). -/
structure MappedChunk where
  ptrBuf : Nat
  buffer_index : Nat
  size : Nat
deriving DecidableEq, Repr

/-- Model of the `InstancePool<T>` state.  No field depends on the instance type `T`
(the device memory holds the actual records), so the pool is not
parametrised. -/
structure InstancePool where
  chunk_size : Nat
  mapped_chunks : List MappedChunk
  used_chunks : List Nat
  ready_chunks : List Nat
  usage_hint : VertexUsageHint
  duplicate_per_vertex : Bool
  epoch : Nat
deriving DecidableEq, Repr

/-- Model of `InstanceRange` (`buffer_index`, `sub_range`, debug `epoch`). -/
structure InstanceRange where
  buffer_index : Nat
  sub_start : Nat
  sub_end : Nat
  epoch : Nat
deriving DecidableEq, Repr

/-- Device memory model: a supply of fresh VBO ids and, for each VBO id,
the list of instance slots written into it (in slot-offset order). -/
structure DeviceState (α : Type) where
  nextVBO : Nat
  contents : Nat → List α

/-- Model of `Device::create_vbo_raw`: returns a fresh VBO id. -/
def createVboRaw {α : Type} (d : DeviceState α) : Nat × DeviceState α :=
  (d.nextVBO, { d with nextVBO := d.nextVBO + 1 })

/-- Model of `Device::update_vbo_data`: replaces the whole contents of a VBO. -/
def updateVboData {α : Type} (d : DeviceState α) (buf : Nat) (data : List α) :
    DeviceState α :=
  { d with contents := Function.update d.contents buf data }

/-- Model of `Device::initialize_mapped_vertex_buffer`: (re-)allocates the VBO's
storage and maps it; the previous contents are discarded, and no slot is
written yet. -/
def initializeMappedVertexBuffer {α : Type} (d : DeviceState α) (buf : Nat) :
    DeviceState α :=
  { d with contents := Function.update d.contents buf [] }

/-- Overwrite the slots of `buf` starting at slot offset `off` with `ws`
(a CPU write through a mapped pointer). -/
def writeAt {α : Type} (buf : List α) (off : Nat) (ws : List α) : List α :=
  buf.take off ++ ws ++ buf.drop (off + ws.length)

/-- A write of `ws` through a mapped pointer into VBO `buf` at slot
offset `off`. -/
def writeMapped {α : Type} (d : DeviceState α) (buf : Nat) (off : Nat)
    (ws : List α) : DeviceState α :=
  { d with contents := Function.update d.contents buf (writeAt (d.contents buf) off ws) }

/-- Model of `InstancePool::fill`: the slots a call writes for input `data` —
each record four consecutive times under `duplicate_per_vertex`, the
records themselves otherwise. -/
def fillData {α : Type} (dup : Bool) (data : List α) : List α :=
  if dup then (data.map (fun v => [v, v, v, v])).flatten else data

/-- The `mapped_chunks.iter_mut().find(...)` step of `InstancePool::add`:
scan the mapped chunks in order for the first one satisfying
`mc.size + extra ≤ total`; return it (pre-advance) together with the
chunk list in which its `size` has been advanced by `extra`. -/
def coalesce (total extra : Nat) : List MappedChunk → Option (MappedChunk × List MappedChunk)
  | [] => none
  | mc :: rest =>
    if mc.size + extra ≤ total then
      some (mc, { mc with size := mc.size + extra } :: rest)
    else
      (coalesce total extra rest).map (fun r => (r.1, mc :: r.2))

/-- The `self.ready_chunks.pop()` / `device.create_vbo_raw()` step of
`InstancePool::add`: take the last ready VBO, or ask the device for a
fresh one. -/
def popReady {α : Type} (p : InstancePool) (d : DeviceState α) :
    Nat × List Nat × DeviceState α :=
  match p.ready_chunks.getLast? with
  | some b => (b, p.ready_chunks.dropLast, d)
  | none =>
    let fresh := createVboRaw d
    (fresh.1, p.ready_chunks, fresh.2)

/-- Model of `InstancePool::add`. -/
def InstancePool.add {α : Type} (p : InstancePool) (instances : List α)
    (d : DeviceState α) : InstanceRange × InstancePool × DeviceState α :=
  let total_size := p.chunk_size
  let repeat_count := if p.duplicate_per_vertex then VERTICES_PER_INSTANCE else 1
  let extra_size := instances.length * repeat_count
  match coalesce total_size extra_size p.mapped_chunks with
  | some (mc, mapped2) =>
    let d2 := writeMapped d mc.ptrBuf mc.size (fillData p.duplicate_per_vertex instances)
    let full_instance_count := (mc.size + extra_size) / repeat_count
    (⟨mc.buffer_index, full_instance_count - instances.length, full_instance_count, p.epoch⟩,
     { p with mapped_chunks := mapped2 }, d2)
  | none =>
    let popped : Nat × List Nat × DeviceState α := popReady p d
    let buffer := popped.1
    let ready2 := popped.2.1
    let d1 := popped.2.2
    let buffer_index := p.used_chunks.length
    let used2 := p.used_chunks ++ [buffer]
    if p.chunk_size ≤ extra_size ∧ p.duplicate_per_vertex = false then
      (⟨buffer_index, 0, instances.length, p.epoch⟩,
       { p with used_chunks := used2, ready_chunks := ready2 },
       updateVboData d1 buffer instances)
    else
      let d2 := writeMapped (initializeMappedVertexBuffer d1 buffer) buffer 0
        (fillData p.duplicate_per_vertex instances)
      if p.chunk_size ≤ extra_size then
        (⟨buffer_index, 0, instances.length, p.epoch⟩,
         { p with used_chunks := used2, ready_chunks := ready2 }, d2)
      else
        (⟨buffer_index, 0, instances.length, p.epoch⟩,
         { p with used_chunks := used2, ready_chunks := ready2,
                  mapped_chunks := p.mapped_chunks ++ [⟨buffer, buffer_index, extra_size⟩] },
         d2)

/-- Model of `InstancePool::finish`: unmaps every mapped chunk (no written slot
changes) and empties `mapped_chunks`. -/
def InstancePool.finish (p : InstancePool) : InstancePool :=
  { p with mapped_chunks := [] }

/-- Model of `InstancePool::reset`.  The source `assert!`s that `mapped_chunks` is
empty; the failing assertion is modelled as `none`. -/
def InstancePool.reset (p : InstancePool) : Option InstancePool :=
  if p.mapped_chunks.isEmpty then
    some { p with
      ready_chunks := p.ready_chunks ++ p.used_chunks,
      used_chunks := [],
      epoch := p.epoch + 1 }
  else
    none

/-- Run a sequence of `add` calls, threading pool and device state. -/
def addAll {α : Type} (p : InstancePool) (d : DeviceState α) :
    List (List α) → InstancePool × DeviceState α
  | [] => (p, d)
  | xs :: rest =>
    let r := p.add xs d
    addAll r.2.1 r.2.2 rest

/-- The instance slots written into the pool's buffers, concatenated in
buffer order (`used_chunks` order, each buffer's slots in offset order). -/
def poolContents {α : Type} (p : InstancePool) (d : DeviceState α) : List α :=
  (p.used_chunks.map d.contents).flatten

/-- A GPU 2D texture as far as `VertexDataTexture` observes it:
its width and height. -/
structure Texture where
  width : Nat
  height : Nat
deriving DecidableEq, Repr

/-- Device calls issued by `VertexDataTexture::update`, in order. -/
inductive TexEvent
  | deleteTexture (t : Texture)
  | createTexture (t : Texture)
  | upload (w h len : Nat)
deriving DecidableEq, Repr

/-- Model of `VertexDataTexture<T>::update`, parametrised by
`maxW = MAX_VERTEX_TEXTURE_WIDTH` and `tpi = size_of::<T>() / 16`
(the `texels_per_item` of the source).  The state is the optional
texture; the result pairs the new state with the trace of device calls.
Only `data.len()` matters to the control flow (`data.reserve` grows
capacity, never the length), so the data vector is abstracted to its
length `dataLen`. -/
def vertexDataTextureUpdate (maxW tpi : Nat) (s : Option Texture) (dataLen : Nat) :
    Option Texture × List TexEvent :=
  let items_per_row := maxW / tpi
  if dataLen = 0 ∧ s.isSome = true then
    (s, [])
  else
    let len :=
      if dataLen = 0 then items_per_row
      else if dataLen % items_per_row = 0 then dataLen
      else dataLen + (items_per_row - dataLen % items_per_row)
    let needed_height := len / items_per_row
    let existing_height := match s with | none => 0 | some t => t.height
    let recreate : Option Texture × List TexEvent :=
      if needed_height > existing_height
          ∨ needed_height + VERTEX_TEXTURE_EXTRA_ROWS < existing_height then
        let delEvents : List TexEvent :=
          match s with | none => [] | some t => [.deleteTexture t]
        let t2 : Texture := ⟨maxW, max needed_height 2⟩
        (some t2, delEvents ++ [.createTexture t2])
      else
        (s, [])
    let logical_width :=
      if needed_height = 1 then dataLen * tpi
      else maxW - maxW % tpi
    (recreate.1, recreate.2 ++ [.upload logical_width needed_height len])

/-- Fold `vertexDataTextureUpdate` over a list of data lengths. -/
def vertexDataTextureUpdateAll (maxW tpi : Nat) (s : Option Texture) :
    List Nat → Option Texture
  | [] => s
  | n :: rest =>
    vertexDataTextureUpdateAll maxW tpi (vertexDataTextureUpdate maxW tpi s n).1 rest

/-- Constant `QUAD_INDICES` from `VertexContextHub::new`. -/
def QUAD_INDICES : List Nat := [0, 1, 2, 2, 1, 3]

/-- Constant `QUAD_VERTICES` from `VertexContextHub::new`. -/
def QUAD_VERTICES : List (List Nat) := [[0, 0], [0xFF, 0], [0, 0xFF], [0xFF, 0xFF]]

/-- The part of `VertexContextHub::new` that the base VAO and the
primitive context observe: the index data and main vertex data uploaded
to the base VAO, the instance divisor, and the `duplicate_per_vertex` /
`chunk_size` of the primitive context's pool. -/
structure HubBaseSetup where
  indices : List Nat
  mainVertices : List (List Nat)
  instance_divisor : Nat
  prim_duplicate_per_vertex : Bool
  prim_chunk_size : Nat
deriving DecidableEq, Repr

/-- Model of `VertexContextHub::new` restricted to the base-VAO uploads and the
primitive pool configuration.  Index values are computed in `u16`
arithmetic (`% 65536`); the `assert!(count < u16::MAX)` is modelled as
`none`. -/
def vertexContextHubNewBase (indexed_quads : Option Nat) : Option HubBaseSetup :=
  let instance_divisor := match indexed_quads with | some _ => 0 | none => 1
  match indexed_quads with
  | some count =>
    if count < 65535 then
      some
        { indices :=
            ((List.range count).map (fun inst =>
              QUAD_INDICES.map (fun index => (inst * 4 + index) % 65536))).flatten
          mainVertices := ((List.range count).map (fun _ => QUAD_VERTICES)).flatten
          instance_divisor
          prim_duplicate_per_vertex := true
          prim_chunk_size := count / 2 }
    else
      none
  | none =>
    some
      { indices := QUAD_INDICES
        mainVertices := QUAD_VERTICES
        instance_divisor
        prim_duplicate_per_vertex := false
        prim_chunk_size := 0 }

/-- The binding state a `VertexContextRef` manipulates: the VAO's own
default instance VBO, the pool's `used_chunks` (`instance_buffers`), and
the cached currently bound instance buffer. -/
structure VertexContextRefState where
  vaoInstanceVbo : Nat
  instanceBuffers : List Nat
  currentInstanceBuffer : Nat
deriving DecidableEq, Repr

/-- Model of `VertexContextRef::bind_impl`: both branches leave
`current_instance_buffer = buffer` (the device calls differ, the cached
state does not). -/
def VertexContextRefState.bind_impl (c : VertexContextRefState) (buffer : Nat) :
    VertexContextRefState :=
  { c with currentInstanceBuffer := buffer }

/-- Model of `VertexContextRef::bind`: bind the pool buffer at `index`.  The
source indexes `instance_buffers[index]` (a panic when out of range);
the model totalises with `getD` and the theorems assume the index is in
range. -/
def VertexContextRefState.bind (c : VertexContextRefState) (index : Nat) :
    VertexContextRefState :=
  c.bind_impl (c.instanceBuffers.getD index 0)

/-- Model of `VertexContextRef::bind_general`: bind the VAO's default instance VBO. -/
def VertexContextRefState.bind_general (c : VertexContextRefState) :
    VertexContextRefState :=
  c.bind_impl c.vaoInstanceVbo

/-- The `assert_eq!(*self.current_instance_buffer, self.vao.instance_vbo_id)`
guard of `VertexContextRef::upload_instance_data`: `true` when the upload
proceeds, `false` when the assertion panics. -/
def VertexContextRefState.uploadInstanceDataOk (c : VertexContextRefState) : Bool :=
  c.currentInstanceBuffer = c.vaoInstanceVbo

/-- The binding operations available on a `VertexContextRef`. -/
inductive CtxOp
  | bindIdx (i : Nat)
  | bindGeneral
deriving DecidableEq, Repr

/-- Apply one binding operation. -/
def applyCtxOp (c : VertexContextRefState) : CtxOp → VertexContextRefState
  | .bindIdx i => c.bind i
  | .bindGeneral => c.bind_general

/-- Apply a sequence of binding operations. -/
def applyCtxOps (c : VertexContextRefState) : List CtxOp → VertexContextRefState
  | [] => c
  | op :: rest => applyCtxOps (applyCtxOp c op) rest

/-- Guard for a binding operation: `bind(i)` with `i` in range of the
`instance_buffers` slice (the source panics on an out-of-range index),
and not `bind_general`. -/
def ctxOpOk (n : Nat) : CtxOp → Bool
  | .bindIdx i => i < n
  | .bindGeneral => false

/-- The number of rows the (padded) data of an `update` call requires:
one row of padding when the data is empty, `⌈dataLen / items_per_row⌉`
otherwise. -/
def claimNeededHeight (items_per_row dataLen : Nat) : Nat :=
  if dataLen = 0 then 1 else (dataLen + items_per_row - 1) / items_per_row

/-- The current texture height, `0` when no texture exists
(the source's `self.texture.as_ref().map_or(0, |t| ...height)`). -/
def texHeight : Option Texture → Nat
  | none => 0
  | some t => t.height

/-- Well-formedness of a pool together with the device memory:
the VBO ids in `used_chunks`/`ready_chunks` are pairwise distinct and
below the device's fresh-id counter; every mapped chunk points (via its
`buffer_index`) at the used chunk whose storage its pointer maps, and its
`size` counts exactly the slots written into that buffer; and distinct
mapped chunks map distinct used chunks. -/
structure PoolInv {α : Type} (p : InstancePool) (d : DeviceState α) : Prop where
  nodup : (p.used_chunks ++ p.ready_chunks).Nodup
  lt_next : ∀ b ∈ p.used_chunks ++ p.ready_chunks, b < d.nextVBO
  mapped_ok : ∀ (j : Nat) (mc : MappedChunk), p.mapped_chunks[j]? = some mc →
    p.used_chunks[mc.buffer_index]? = some mc.ptrBuf ∧
    (d.contents mc.ptrBuf).length = mc.size
  idx_inj : ∀ (j k : Nat) (mcj mck : MappedChunk), p.mapped_chunks[j]? = some mcj →
    p.mapped_chunks[k]? = some mck → mcj.buffer_index = mck.buffer_index → j = k

example :
    let p0 : InstancePool := ⟨8, [], [], [], .hintStream, false, 0⟩
    let d0 : DeviceState Nat := ⟨0, fun _ => []⟩
    let r := addAll p0 d0 [[1, 2, 3], [4, 5]]
    poolContents r.1 r.2 = [1, 2, 3, 4, 5] := by decide

example :
    let p0 : InstancePool := ⟨4, [], [], [], .hintStream, false, 0⟩
    let d0 : DeviceState Nat := ⟨0, fun _ => []⟩
    let r := addAll p0 d0 [[1, 2, 3], [4, 5], [6]]
    poolContents r.1 r.2 = [1, 2, 3, 6, 4, 5] := by decide

example :
    let p0 : InstancePool := ⟨16, [], [], [], .hintStream, true, 0⟩
    let d0 : DeviceState Nat := ⟨0, fun _ => []⟩
    let r := (p0.add [7] d0)
    poolContents r.2.1 r.2.2 = [7, 7, 7, 7] ∧ r.1 = ⟨0, 0, 1, 0⟩ := by decide

/-! ### C4: `InstancePool::reset` -/

/-- C4: `reset` has the precondition that `mapped_chunks` is empty
(otherwise the assertion fails); when it holds, `used_chunks` becomes
empty, `ready_chunks` grows by exactly the previous `used_chunks` (every
VBO moves over), `epoch` increases by one, and `chunk_size`,
`usage_hint` and `duplicate_per_vertex` are unchanged. -/
theorem instancePool_reset_spec (p : InstancePool) :
    (p.mapped_chunks ≠ [] → p.reset = none) ∧
    (p.mapped_chunks = [] →
      ∃ p', p.reset = some p' ∧
        p'.used_chunks = [] ∧
        p'.ready_chunks = p.ready_chunks ++ p.used_chunks ∧
        p'.ready_chunks.length = p.ready_chunks.length + p.used_chunks.length ∧
        p'.epoch = p.epoch + 1 ∧
        p'.chunk_size = p.chunk_size ∧
        p'.usage_hint = p.usage_hint ∧
        p'.duplicate_per_vertex = p.duplicate_per_vertex) := by
  constructor
  · intro h
    simp [InstancePool.reset, List.isEmpty_iff, h]
  · intro h
    refine ⟨{ p with used_chunks := [],
                     ready_chunks := p.ready_chunks ++ p.used_chunks,
                     epoch := p.epoch + 1 }, ?_, rfl, rfl, by simp, rfl, rfl, rfl, rfl⟩
    simp [InstancePool.reset, List.isEmpty_iff, h]

theorem instancePool_reset_spec_witness :
    (InstancePool.reset ⟨8, [⟨0, 0, 1⟩], [0], [], .hintStream, false, 0⟩ = none) ∧
    ∃ p', InstancePool.reset ⟨8, [], [0, 1], [2], .hintStream, false, 3⟩ = some p' ∧
      p'.used_chunks = [] ∧
      p'.ready_chunks = [2, 0, 1] ∧
      p'.ready_chunks.length = 1 + 2 ∧
      p'.epoch = 3 + 1 ∧
      p'.chunk_size = 8 ∧
      p'.usage_hint = .hintStream ∧
      p'.duplicate_per_vertex = false :=
  ⟨(instancePool_reset_spec ⟨8, [⟨0, 0, 1⟩], [0], [], .hintStream, false, 0⟩).1 (by decide),
   (instancePool_reset_spec ⟨8, [], [0, 1], [2], .hintStream, false, 3⟩).2 rfl⟩

/-! ### C5: `reset(); reset()` -/

/-- C5 counterexample: on a pool whose `mapped_chunks` is (and stays)
empty, `reset(); reset()` does not equal a single `reset()` — the
`epoch` field is incremented twice. -/
theorem instancePool_reset_twice_ne_reset :
    (InstancePool.mapped_chunks ⟨8, [], [0], [1], .hintStream, false, 0⟩ = []) ∧
    ((InstancePool.reset ⟨8, [], [0], [1], .hintStream, false, 0⟩).bind InstancePool.reset ≠
      InstancePool.reset ⟨8, [], [0], [1], .hintStream, false, 0⟩) := by
  constructor
  · rfl
  · decide

/-- C5 amended: once `mapped_chunks` is empty, a second `reset` agrees
with a single `reset` on every field except `epoch`, which is one
larger after the second call. -/
theorem instancePool_reset_twice_eq_except_epoch (p : InstancePool)
    (h : p.mapped_chunks = []) :
    ∃ p1 p2, p.reset = some p1 ∧ p1.reset = some p2 ∧
      p2.used_chunks = p1.used_chunks ∧
      p2.ready_chunks = p1.ready_chunks ∧
      p2.mapped_chunks = p1.mapped_chunks ∧
      p2.chunk_size = p1.chunk_size ∧
      p2.usage_hint = p1.usage_hint ∧
      p2.duplicate_per_vertex = p1.duplicate_per_vertex ∧
      p2.epoch = p1.epoch + 1 := by
  refine ⟨{ p with used_chunks := [],
                   ready_chunks := p.ready_chunks ++ p.used_chunks,
                   epoch := p.epoch + 1 },
          { p with used_chunks := [],
                   ready_chunks := (p.ready_chunks ++ p.used_chunks) ++ [],
                   epoch := p.epoch + 1 + 1 },
          ?_, ?_, rfl, by simp, rfl, rfl, rfl, rfl, rfl⟩
  · simp [InstancePool.reset, List.isEmpty_iff, h]
  · simp [InstancePool.reset, List.isEmpty_iff, h]

theorem instancePool_reset_twice_eq_except_epoch_witness :
    ∃ p1 p2, InstancePool.reset ⟨8, [], [0], [1], .hintStream, false, 0⟩ = some p1 ∧
      p1.reset = some p2 ∧
      p2.used_chunks = p1.used_chunks ∧
      p2.ready_chunks = p1.ready_chunks ∧
      p2.mapped_chunks = p1.mapped_chunks ∧
      p2.chunk_size = p1.chunk_size ∧
      p2.usage_hint = p1.usage_hint ∧
      p2.duplicate_per_vertex = p1.duplicate_per_vertex ∧
      p2.epoch = p1.epoch + 1 :=
  instancePool_reset_twice_eq_except_epoch ⟨8, [], [0], [1], .hintStream, false, 0⟩ rfl

/-! ### C9: `VertexDataTexture::update` with empty data -/

/-- C9: calling `update` with an empty data vector while a texture
already exists returns immediately: the texture state is unchanged and
no device call (create, delete or upload) is issued. -/
theorem vertexDataTexture_update_empty_noop (maxW tpi : Nat) (t : Texture) :
    vertexDataTextureUpdate maxW tpi (some t) 0 = (some t, []) := by
  simp [vertexDataTextureUpdate]

/-! ### C8: texture height is at least 2 -/

/-- One `update` call preserves "the texture, if it exists, has height
at least 2": a recreated texture has height `max needed_height 2 ≥ 2`,
and otherwise the texture object is unchanged. -/
theorem vertexDataTextureUpdate_height_step (maxW tpi n : Nat) (s : Option Texture)
    (h : ∀ t, s = some t → 2 ≤ t.height) :
    ∀ t, (vertexDataTextureUpdate maxW tpi s n).1 = some t → 2 ≤ t.height := by
  intro t ht
  unfold vertexDataTextureUpdate at ht
  dsimp only at ht
  repeat' split at ht
  all_goals first
    | exact h t ht
    | (injection ht with hh; subst hh; exact Nat.le_max_right _ 2)

/-- C8: over any sequence of `update` calls, whenever the GPU texture
exists — in particular on exit from every call — its height is at
least 2. -/
theorem vertexDataTexture_height_ge_two (maxW tpi : Nat) (s : Option Texture)
    (lens : List Nat) (h : ∀ t, s = some t → 2 ≤ t.height) :
    ∀ t, vertexDataTextureUpdateAll maxW tpi s lens = some t → 2 ≤ t.height := by
  induction lens generalizing s with
  | nil => exact h
  | cons n rest ih =>
    exact ih _ (vertexDataTextureUpdate_height_step maxW tpi n s h)

theorem vertexDataTexture_height_ge_two_witness :
    2 ≤ (Texture.mk 16 2).height :=
  vertexDataTexture_height_ge_two 16 1 none [20] (fun t ht => by cases ht) ⟨16, 2⟩
    (by decide)

/-! ### C7: `VertexContextHub::new` with indexed quads -/

/-- C7: with `indexed_quads = Some count` (and `count < u16::MAX`), the
base VAO's index buffer holds `count` copies of `QUAD_INDICES` with the
`i`-th copy offset by `4 * i` in `u16` arithmetic, its main vertex
buffer holds `count` copies of `QUAD_VERTICES`, and the primitive
context uses `instance_divisor = 0` and a pool with
`duplicate_per_vertex = true`. -/
theorem vertexContextHubNew_indexed_quads (count : Nat) (_h0 : 0 < count)
    (h : count < 65535) :
    ∃ setup, vertexContextHubNewBase (some count) = some setup ∧
      setup.indices = ((List.range count).map (fun i =>
        QUAD_INDICES.map (fun v => (v + 4 * i) % 65536))).flatten ∧
      setup.mainVertices = (List.replicate count QUAD_VERTICES).flatten ∧
      setup.instance_divisor = 0 ∧
      setup.prim_duplicate_per_vertex = true := by
  have hsetup : vertexContextHubNewBase (some count) = some
      { indices := ((List.range count).map (fun inst =>
          QUAD_INDICES.map (fun index => (inst * 4 + index) % 65536))).flatten
        mainVertices := ((List.range count).map (fun _ => QUAD_VERTICES)).flatten
        instance_divisor := 0
        prim_duplicate_per_vertex := true
        prim_chunk_size := count / 2 } := by
    simp [vertexContextHubNewBase, h]
  refine ⟨_, hsetup, ?_, ?_, rfl, rfl⟩
  · dsimp only
    congr 1
    apply List.map_congr_left
    intro i _
    apply List.map_congr_left
    intro v _
    omega
  · dsimp only
    rw [List.map_const', List.length_range]

theorem vertexContextHubNew_indexed_quads_witness :
    ∃ setup, vertexContextHubNewBase (some 2) = some setup ∧
      setup.indices = ((List.range 2).map (fun i =>
        QUAD_INDICES.map (fun v => (v + 4 * i) % 65536))).flatten ∧
      setup.mainVertices = (List.replicate 2 QUAD_VERTICES).flatten ∧
      setup.instance_divisor = 0 ∧
      setup.prim_duplicate_per_vertex = true :=
  vertexContextHubNew_indexed_quads 2 (by decide) (by decide)

/-! ### C10: `upload_instance_data` and the cached instance buffer -/

/-- Binding operations change only the cached current instance buffer. -/
theorem applyCtxOps_fields (ops : List CtxOp) : ∀ c : VertexContextRefState,
    (applyCtxOps c ops).vaoInstanceVbo = c.vaoInstanceVbo ∧
    (applyCtxOps c ops).instanceBuffers = c.instanceBuffers := by
  induction ops with
  | nil => exact fun c => ⟨rfl, rfl⟩
  | cons op rest ih =>
    intro c
    cases op <;>
      simpa [applyCtxOps, applyCtxOp, VertexContextRefState.bind,
        VertexContextRefState.bind_general, VertexContextRefState.bind_impl]
        using ih _

/-- After `bind(i)` with `i` in range, the cached buffer is one of the
pool's buffers. -/
theorem bind_current_mem (c : VertexContextRefState) (i : Nat)
    (h : i < c.instanceBuffers.length) :
    (c.bind i).currentInstanceBuffer ∈ c.instanceBuffers := by
  simp only [VertexContextRefState.bind, VertexContextRefState.bind_impl,
    List.getD_eq_getElem?_getD, List.getElem?_eq_getElem h]
  exact List.getElem_mem h

/-- A sequence of in-range `bind(i)` operations keeps the cached buffer
inside the pool's buffer list. -/
theorem applyCtxOps_current_mem (ops : List CtxOp) : ∀ c : VertexContextRefState,
    c.currentInstanceBuffer ∈ c.instanceBuffers →
    (∀ op ∈ ops, ctxOpOk c.instanceBuffers.length op = true) →
    (applyCtxOps c ops).currentInstanceBuffer ∈ c.instanceBuffers := by
  induction ops with
  | nil => exact fun c hc _ => hc
  | cons op rest ih =>
    intro c hc hops
    cases op with
    | bindIdx i =>
      have hi : i < c.instanceBuffers.length := by
        have := hops _ (List.mem_cons_self _ _)
        simpa [ctxOpOk] using this
      have hmem := bind_current_mem c i hi
      have := ih (c.bind i) (by
          simpa [VertexContextRefState.bind, VertexContextRefState.bind_impl]
            using hmem)
        (by
          intro op hop
          have := hops op (List.mem_cons_of_mem _ hop)
          simpa [VertexContextRefState.bind, VertexContextRefState.bind_impl]
            using this)
      simpa [applyCtxOps, applyCtxOp, VertexContextRefState.bind,
        VertexContextRefState.bind_impl] using this
    | bindGeneral =>
      have := hops _ (List.mem_cons_self _ _)
      simp [ctxOpOk] at this

/-- C10: `upload_instance_data` proceeds exactly when the cached current
instance buffer equals the VAO's own default instance VBO (the
`assert_eq!` guard, a panic otherwise); after `bind(index)` has switched
to a pool-owned buffer, no sequence of further in-range `bind` calls can
make it succeed, while `bind_general` restores the default buffer and
with it the assertion. -/
theorem uploadInstanceData_assert_guard (c : VertexContextRefState) :
    (c.uploadInstanceDataOk = true ↔ c.currentInstanceBuffer = c.vaoInstanceVbo) ∧
    (c.bind_general.uploadInstanceDataOk = true) ∧
    (∀ i, i < c.instanceBuffers.length → c.vaoInstanceVbo ∉ c.instanceBuffers →
      ∀ ops : List CtxOp, (∀ op ∈ ops, ctxOpOk c.instanceBuffers.length op = true) →
        (applyCtxOps (c.bind i) ops).uploadInstanceDataOk = false) := by
  refine ⟨?_, ?_, ?_⟩
  · simp [VertexContextRefState.uploadInstanceDataOk]
  · simp [VertexContextRefState.uploadInstanceDataOk,
      VertexContextRefState.bind_general, VertexContextRefState.bind_impl]
  · intro i hi hnot ops hops
    have hmem : (applyCtxOps (c.bind i) ops).currentInstanceBuffer ∈ c.instanceBuffers := by
      have := applyCtxOps_current_mem ops (c.bind i)
        (by simpa [VertexContextRefState.bind, VertexContextRefState.bind_impl]
          using bind_current_mem c i hi)
        (by simpa [VertexContextRefState.bind, VertexContextRefState.bind_impl]
          using hops)
      simpa [VertexContextRefState.bind, VertexContextRefState.bind_impl] using this
    have hvao : (applyCtxOps (c.bind i) ops).vaoInstanceVbo = c.vaoInstanceVbo := by
      simpa [VertexContextRefState.bind, VertexContextRefState.bind_impl]
        using (applyCtxOps_fields ops (c.bind i)).1
    simp only [VertexContextRefState.uploadInstanceDataOk, hvao,
      decide_eq_false_iff_not]
    intro heq
    exact hnot (heq ▸ hmem)

theorem uploadInstanceData_assert_guard_witness :
    (applyCtxOps ((⟨5, [1, 2], 5⟩ : VertexContextRefState).bind 0)
      [CtxOp.bindIdx 1]).uploadInstanceDataOk = false :=
  (uploadInstanceData_assert_guard ⟨5, [1, 2], 5⟩).2.2 0 (by decide) (by decide)
    [CtxOp.bindIdx 1] (by decide)

/-! ### C3: `VertexDataTexture::update` resize policy -/

/-- The number of rows required is positive. -/
theorem claimNeededHeight_pos (ipr dataLen : Nat) (h : 0 < ipr) :
    0 < claimNeededHeight ipr dataLen := by
  unfold claimNeededHeight
  split
  · exact Nat.one_pos
  · exact Nat.div_pos (by omega) h

/-- Padding the length up to the next multiple of `items_per_row` and
dividing equals the ceiling division `⌈dataLen / items_per_row⌉`. -/
theorem padded_div_eq (ipr dataLen : Nat) (h : 0 < ipr) (hd : dataLen ≠ 0) :
    (if dataLen % ipr = 0 then dataLen else dataLen + (ipr - dataLen % ipr)) / ipr =
      (dataLen + ipr - 1) / ipr := by
  rcases Nat.eq_zero_or_pos (dataLen % ipr) with h0 | h0
  · rw [if_pos h0]
    obtain ⟨q, hq⟩ := Nat.dvd_of_mod_eq_zero h0
    subst hq
    have hq1 : q ≠ 0 := by
      rintro rfl
      simp at hd
    have e2 : ipr * q + ipr - 1 = (ipr - 1) + ipr * q := by omega
    have d2 : ((ipr - 1) + ipr * q) / ipr = (ipr - 1) / ipr + q :=
      Nat.add_mul_div_left _ _ h
    have d3 : (ipr - 1) / ipr = 0 := Nat.div_eq_of_lt (by omega)
    rw [e2, d2, d3, Nat.mul_div_cancel_left q h]
    omega
  · rw [if_neg (by omega)]
    have hr : dataLen % ipr < ipr := Nat.mod_lt _ h
    have hdm : ipr * (dataLen / ipr) + dataLen % ipr = dataLen := Nat.div_add_mod dataLen ipr
    have hmul : ipr * (dataLen / ipr + 1) = ipr * (dataLen / ipr) + ipr := by ring
    have e1 : dataLen + (ipr - dataLen % ipr) = 0 + ipr * (dataLen / ipr + 1) := by omega
    have e2 : dataLen + ipr - 1 = (dataLen % ipr - 1) + ipr * (dataLen / ipr + 1) := by omega
    have d1 : (0 + ipr * (dataLen / ipr + 1)) / ipr = 0 / ipr + (dataLen / ipr + 1) :=
      Nat.add_mul_div_left _ _ h
    have d2 : ((dataLen % ipr - 1) + ipr * (dataLen / ipr + 1)) / ipr =
        (dataLen % ipr - 1) / ipr + (dataLen / ipr + 1) :=
      Nat.add_mul_div_left _ _ h
    have d3 : (dataLen % ipr - 1) / ipr = 0 := Nat.div_eq_of_lt (by omega)
    rw [e1, e2, d1, d2, d3, Nat.zero_div]

/-- The height the source computes for the (optionally padded) data is
`claimNeededHeight`. -/
theorem update_needed_height_eq (maxW tpi dataLen : Nat) (hrow : 0 < maxW / tpi) :
    (if dataLen = 0 then maxW / tpi
      else if dataLen % (maxW / tpi) = 0 then dataLen
      else dataLen + (maxW / tpi - dataLen % (maxW / tpi))) / (maxW / tpi) =
      claimNeededHeight (maxW / tpi) dataLen := by
  rcases Nat.eq_zero_or_pos dataLen with rfl | hd
  · rw [if_pos rfl, Nat.div_self hrow, claimNeededHeight, if_pos rfl]
  · have hcn : claimNeededHeight (maxW / tpi) dataLen =
        (dataLen + (maxW / tpi) - 1) / (maxW / tpi) := by
      rw [claimNeededHeight, if_neg (by omega)]
    rw [if_neg (show ¬dataLen = 0 by omega), hcn]
    exact padded_div_eq _ _ hrow (by omega)

/-- C3: a call to `update` that computes a needed height (that is, one
that does not take the empty-data early return) destroys the old texture
and creates a new one of width `MAX_VERTEX_TEXTURE_WIDTH` and height
`max needed_height 2` exactly when `needed_height > H` or
`needed_height + 10 < H`, where `H` is the current height (`0` with no
texture); otherwise the texture object is reused unchanged, with no
create or delete. -/
theorem vertexDataTexture_resize_policy (maxW tpi dataLen : Nat) (s : Option Texture)
    (hrow : 0 < maxW / tpi) (hcall : dataLen ≠ 0 ∨ s = none) :
    ((claimNeededHeight (maxW / tpi) dataLen > texHeight s ∨
        claimNeededHeight (maxW / tpi) dataLen + 10 < texHeight s) →
      (vertexDataTextureUpdate maxW tpi s dataLen).1 =
        some ⟨maxW, max (claimNeededHeight (maxW / tpi) dataLen) 2⟩ ∧
      (∀ t, s = some t →
        TexEvent.deleteTexture t ∈ (vertexDataTextureUpdate maxW tpi s dataLen).2) ∧
      TexEvent.createTexture ⟨maxW, max (claimNeededHeight (maxW / tpi) dataLen) 2⟩
        ∈ (vertexDataTextureUpdate maxW tpi s dataLen).2) ∧
    (¬(claimNeededHeight (maxW / tpi) dataLen > texHeight s ∨
        claimNeededHeight (maxW / tpi) dataLen + 10 < texHeight s) →
      (vertexDataTextureUpdate maxW tpi s dataLen).1 = s ∧
      (∀ t, TexEvent.createTexture t ∉ (vertexDataTextureUpdate maxW tpi s dataLen).2) ∧
      (∀ t, TexEvent.deleteTexture t ∉ (vertexDataTextureUpdate maxW tpi s dataLen).2)) := by
  cases s with
  | none =>
    have hpos : 0 < claimNeededHeight (maxW / tpi) dataLen :=
      claimNeededHeight_pos (maxW / tpi) dataLen hrow
    have hcond : claimNeededHeight (maxW / tpi) dataLen > texHeight none ∨
        claimNeededHeight (maxW / tpi) dataLen + 10 < texHeight none := by
      left
      simpa [texHeight] using hpos
    constructor
    · intro _
      unfold vertexDataTextureUpdate
      rw [if_neg (by simp)]
      dsimp only
      rw [update_needed_height_eq maxW tpi dataLen hrow]
      rw [if_pos (by simpa [texHeight] using hcond)]
      refine ⟨rfl, ?_, ?_⟩
      · intro t ht
        cases ht
      · simp
    · intro hn
      exact absurd hcond hn
  | some t =>
    have hd : dataLen ≠ 0 := by
      rcases hcall with h | h
      · exact h
      · cases h
    constructor
    · intro hcond
      unfold vertexDataTextureUpdate
      rw [if_neg (by simp [hd])]
      dsimp only
      rw [update_needed_height_eq maxW tpi dataLen hrow]
      rw [if_pos (by simpa [texHeight] using hcond)]
      refine ⟨rfl, ?_, ?_⟩
      · intro t' ht'
        cases ht'
        simp
      · simp
    · intro hcond
      unfold vertexDataTextureUpdate
      rw [if_neg (by simp [hd])]
      dsimp only
      rw [update_needed_height_eq maxW tpi dataLen hrow]
      rw [if_neg (by simpa [texHeight] using hcond)]
      refine ⟨rfl, ?_, ?_⟩
      · intro t'
        simp
      · intro t'
        simp

theorem vertexDataTexture_resize_policy_witness :
    (vertexDataTextureUpdate 16 1 none 20).1 =
      some ⟨16, max (claimNeededHeight (16 / 1) 20) 2⟩ :=
  (((vertexDataTexture_resize_policy 16 1 20 none (by decide)
    (Or.inl (by decide))).1) (by decide)).1

/-! ### Coalescing lemmas for `InstancePool::add` -/

/-- A succeeding `coalesce` returns some chunk of the list together with
the list in which exactly that position has its `size` advanced. -/
theorem coalesce_some_spec (total extra : Nat) (l : List MappedChunk)
    (mc : MappedChunk) (l2 : List MappedChunk)
    (h : coalesce total extra l = some (mc, l2)) :
    ∃ j : Nat, l[j]? = some mc ∧ mc.size + extra ≤ total ∧
      l2 = l.set j { mc with size := mc.size + extra } := by
  induction l generalizing l2 with
  | nil => simp [coalesce] at h
  | cons a rest ih =>
    rw [coalesce] at h
    split at h
    · rename_i hfit
      simp only [Option.some.injEq, Prod.mk.injEq] at h
      obtain ⟨rfl, rfl⟩ := h
      exact ⟨0, List.getElem?_cons_zero, hfit, by simp⟩
    · cases hrec : coalesce total extra rest with
      | none =>
        rw [hrec] at h
        simp at h
      | some pr =>
        obtain ⟨mc', rest2⟩ := pr
        rw [hrec] at h
        simp only [Option.map_some', Option.some.injEq, Prod.mk.injEq] at h
        obtain ⟨rfl, rfl⟩ := h
        obtain ⟨j, hj, hfit2, rfl⟩ := ih _ hrec
        exact ⟨j + 1, by simpa using hj, hfit2, by simp⟩

/-- First-fit characterization of `coalesce`: if position `j` holds the
first chunk that fits, `coalesce` picks it. -/
theorem coalesce_first_fit (total extra : Nat) (l : List MappedChunk) (j : Nat)
    (mc : MappedChunk) (hj : l[j]? = some mc) (hfit : mc.size + extra ≤ total)
    (hfirst : ∀ k mk, k < j → l[k]? = some mk → ¬(mk.size + extra ≤ total)) :
    coalesce total extra l = some (mc, l.set j { mc with size := mc.size + extra }) := by
  induction l generalizing j with
  | nil => simp at hj
  | cons a rest ih =>
    cases j with
    | zero =>
      simp only [List.getElem?_cons_zero, Option.some.injEq] at hj
      subst hj
      rw [coalesce, if_pos hfit]
      simp
    | succ j' =>
      have ha : ¬(a.size + extra ≤ total) :=
        hfirst 0 a (Nat.succ_pos _) List.getElem?_cons_zero
      have hrest : ∀ k mk, k < j' → rest[k]? = some mk → ¬(mk.size + extra ≤ total) := by
        intro k mk hk hmk
        exact hfirst (k + 1) mk (Nat.succ_lt_succ hk) (by simpa using hmk)
      rw [coalesce, if_neg ha, ih j' (by simpa using hj) hrest]
      simp

/-! ### C2: coalescing branch of `add` -/

/-- C2: when `add` is called with a non-empty slice and some mapped
chunk has remaining capacity `chunk_size - mc.size ≥ extra`
(`extra = N`, or `4·N` under `duplicate_per_vertex`), the first such
chunk in insertion order receives the expanded instances at slot offset
`mc.size`, its `size` advances by `extra`, and the returned range has
`buffer_index = mc.buffer_index` and
`sub_range = (mc.size/repeat - N) .. mc.size/repeat` computed from the
advanced size. -/
theorem instancePool_add_coalesce {α : Type} (p : InstancePool) (d : DeviceState α)
    (xs : List α) (j : Nat) (mc : MappedChunk)
    (hN : xs ≠ [])
    (hj : p.mapped_chunks[j]? = some mc)
    (hfit : xs.length * (if p.duplicate_per_vertex then 4 else 1) ≤
      p.chunk_size - mc.size)
    (hfirst : ∀ k mk, k < j → p.mapped_chunks[k]? = some mk →
      p.chunk_size - mk.size < xs.length * (if p.duplicate_per_vertex then 4 else 1)) :
    p.add xs d =
      (⟨mc.buffer_index,
        (mc.size + xs.length * (if p.duplicate_per_vertex then 4 else 1)) /
            (if p.duplicate_per_vertex then 4 else 1) - xs.length,
        (mc.size + xs.length * (if p.duplicate_per_vertex then 4 else 1)) /
            (if p.duplicate_per_vertex then 4 else 1),
        p.epoch⟩,
       { p with mapped_chunks := p.mapped_chunks.set j ⟨mc.ptrBuf, mc.buffer_index, mc.size + xs.length * (if p.duplicate_per_vertex then 4 else 1)⟩ },
       writeMapped d mc.ptrBuf mc.size (fillData p.duplicate_per_vertex xs)) := by
  have hlen : 0 < xs.length := List.length_pos.mpr hN
  have hrep1 : 0 < (if p.duplicate_per_vertex then 4 else 1) := by split <;> omega
  have hextra : 0 < xs.length * (if p.duplicate_per_vertex then 4 else 1) :=
    Nat.mul_pos hlen hrep1
  have hfit' : mc.size + xs.length * (if p.duplicate_per_vertex then 4 else 1) ≤
      p.chunk_size := by omega
  have hfirst' : ∀ k mk, k < j → p.mapped_chunks[k]? = some mk →
      ¬(mk.size + xs.length * (if p.duplicate_per_vertex then 4 else 1) ≤
        p.chunk_size) := by
    intro k mk hk hmk
    have := hfirst k mk hk hmk
    omega
  have hco := coalesce_first_fit p.chunk_size
    (xs.length * (if p.duplicate_per_vertex then 4 else 1)) p.mapped_chunks j mc hj
    hfit' hfirst'
  rw [InstancePool.add]
  simp only [VERTICES_PER_INSTANCE]
  rw [hco]

theorem instancePool_add_coalesce_witness :
    InstancePool.add ⟨8, [⟨0, 0, 3⟩], [0], [], .hintStream, false, 0⟩ [42]
        (⟨1, fun _ => []⟩ : DeviceState Nat) =
      (⟨0, (3 + 1 * 1) / 1 - 1, (3 + 1 * 1) / 1, 0⟩,
       ⟨8, [⟨0, 0, 3 + 1 * 1⟩], [0], [], .hintStream, false, 0⟩,
       writeMapped ⟨1, fun _ => []⟩ 0 3 (fillData false [42])) := by
  have h := instancePool_add_coalesce ⟨8, [⟨0, 0, 3⟩], [0], [], .hintStream, false, 0⟩
    (⟨1, fun _ => []⟩ : DeviceState Nat) [42] 0 ⟨0, 0, 3⟩ (by decide) rfl (by decide)
    (fun k mk hk => absurd hk (Nat.not_lt_zero k))
  simpa using h

/-! ### Written-content lemmas -/

/-- Writing no slots changes nothing. -/
theorem writeAt_empty_write {α : Type} (buf : List α) (off : Nat) :
    writeAt buf off ([] : List α) = buf := by
  simp [writeAt, List.take_append_drop]

/-- Writing at the end of the written region appends. -/
theorem writeAt_at_length {α : Type} (buf ws : List α) :
    writeAt buf buf.length ws = buf ++ ws := by
  rw [writeAt, List.take_length, List.drop_eq_nil_of_le (Nat.le_add_right _ _),
    List.append_nil]

/-- The `fill` routine writes nothing for an empty slice. -/
theorem fillData_nil {α : Type} (dup : Bool) : fillData dup ([] : List α) = [] := by
  cases dup <;> rfl

/-- Without duplication, `fill` writes the records as they are. -/
theorem fillData_false {α : Type} (xs : List α) : fillData false xs = xs := rfl

/-- The `fill` routine writes `N` slots, or `4·N` under `duplicate_per_vertex`. -/
theorem fillData_length {α : Type} (dup : Bool) (xs : List α) :
    (fillData dup xs).length = xs.length * (if dup then 4 else 1) := by
  cases dup with
  | false => simp [fillData]
  | true =>
    induction xs with
    | nil => simp [fillData]
    | cons v t ih =>
      simp [fillData] at ih ⊢
      omega

/-- Setting a position to the value it already holds is the identity. -/
theorem set_getElem?_self {α : Type} (l : List α) (j : Nat) (a : α)
    (h : l[j]? = some a) : l.set j a = l := by
  induction l generalizing j with
  | nil => simp at h
  | cons x xs ih =>
    cases j with
    | zero =>
      simp only [List.getElem?_cons_zero, Option.some.injEq] at h
      rw [h]
      rfl
    | succ j' =>
      simp only [List.getElem?_cons_succ] at h
      rw [List.set_cons_succ, ih j' h]

/-- Appending `ws` to the segment of the (unique) buffer `b` permutes
the flattened buffer contents with `ws` moved to the end. -/
theorem flatten_map_update_perm {α : Type} (used : List Nat) (f : Nat → List α)
    (b : Nat) (ws : List α) (hnd : used.Nodup) (hb : b ∈ used) :
    List.Perm ((used.map (Function.update f b (f b ++ ws))).flatten)
      ((used.map f).flatten ++ ws) := by
  induction used with
  | nil => cases hb
  | cons u rest ih =>
    have hnd' := List.nodup_cons.mp hnd
    rcases List.mem_cons.mp hb with rfl | hbr
    · have hmap : rest.map (Function.update f b (f b ++ ws)) = rest.map f := by
        apply List.map_congr_left
        intro x hx
        have hxb : x ≠ b := by
          intro he
          apply hnd'.1
          rw [← he]
          exact hx
        exact Function.update_noteq hxb _ _
      simp only [List.map_cons, List.flatten_cons, hmap, Function.update_same]
      rw [List.append_assoc, List.append_assoc]
      exact List.Perm.append_left _ List.perm_append_comm
    · have hu : u ≠ b := fun h => hnd'.1 (h ▸ hbr)
      simp only [List.map_cons, List.flatten_cons, Function.update_noteq hu]
      rw [List.append_assoc]
      exact List.Perm.append_left _ (ih hnd'.2 hbr)

/-! ### Allocation facts for the new-chunk branch of `add` -/

/-- The VBO produced by `popReady` is distinct from every used chunk,
keeps all chunk lists duplicate-free and id-bounded, and leaves the
written buffer contents unchanged. -/
theorem popReady_facts {α : Type} (p : InstancePool) (d : DeviceState α)
    (inv : PoolInv p d) (b : Nat) (ready2 : List Nat) (d1 : DeviceState α)
    (hpop : popReady p d = (b, ready2, d1)) :
    b ∉ p.used_chunks ∧
    ((p.used_chunks ++ [b]) ++ ready2).Nodup ∧
    (∀ x ∈ (p.used_chunks ++ [b]) ++ ready2, x < d1.nextVBO) ∧
    d1.contents = d.contents := by
  cases hl : p.ready_chunks.getLast? with
  | some bb =>
    rw [popReady, hl] at hpop
    simp only [Prod.mk.injEq] at hpop
    obtain ⟨rfl, rfl, rfl⟩ := hpop
    obtain ⟨ys, hys⟩ := List.getLast?_eq_some_iff.mp hl
    have hdrop : p.ready_chunks.dropLast = ys := by
      rw [hys]
      exact List.dropLast_concat
    have hperm : List.Perm ((p.used_chunks ++ [bb]) ++ ys)
        (p.used_chunks ++ p.ready_chunks) := by
      rw [hys, List.append_assoc]
      exact List.Perm.append_left _ List.perm_append_comm
    have hbr : bb ∈ p.ready_chunks := by
      rw [hys]
      exact List.mem_append.mpr (Or.inr (List.mem_singleton.mpr rfl))
    refine ⟨?_, ?_, ?_, rfl⟩
    · intro hmem
      exact (List.nodup_append.mp inv.nodup).2.2 hmem hbr
    · rw [hdrop]
      exact List.Perm.nodup hperm.symm inv.nodup
    · rw [hdrop]
      intro x hx
      exact inv.lt_next x (hperm.subset hx)
  | none =>
    rw [popReady, hl] at hpop
    simp only [createVboRaw, Prod.mk.injEq] at hpop
    obtain ⟨rfl, rfl, rfl⟩ := hpop
    have hperm : List.Perm ((p.used_chunks ++ [d.nextVBO]) ++ p.ready_chunks)
        ((p.used_chunks ++ p.ready_chunks) ++ [d.nextVBO]) := by
      rw [List.append_assoc, List.append_assoc]
      exact List.Perm.append_left _ List.perm_append_comm
    refine ⟨?_, ?_, ?_, rfl⟩
    · intro hmem
      exact absurd (inv.lt_next _ (List.mem_append.mpr (Or.inl hmem))) (Nat.lt_irrefl _)
    · apply List.Perm.nodup hperm.symm
      rw [List.nodup_append]
      refine ⟨inv.nodup, List.nodup_singleton _, ?_⟩
      intro x hx hx1
      rw [List.mem_singleton] at hx1
      subst hx1
      exact absurd (inv.lt_next _ hx) (Nat.lt_irrefl _)
    · intro x hx
      have hx' := hperm.subset hx
      have hlt : x < d.nextVBO + 1 := by
        rcases List.mem_append.mp hx' with hx2 | hx2
        · exact Nat.lt_succ_of_lt (inv.lt_next x hx2)
        · rw [List.mem_singleton] at hx2
          subst hx2
          exact Nat.lt_succ_self _
      exact hlt

/-- A new chunk appended to `used_chunks` and filled with the expanded
batch preserves the invariant and appends the batch to the written
contents. -/
theorem add_alloc_step {α : Type} (p : InstancePool) (d : DeviceState α) (xs : List α)
    (inv : PoolInv p d) (b : Nat) (ready2 : List Nat) (d1 : DeviceState α)
    (hbu : b ∉ p.used_chunks)
    (hnd2 : ((p.used_chunks ++ [b]) ++ ready2).Nodup)
    (hlt2 : ∀ x ∈ (p.used_chunks ++ [b]) ++ ready2, x < d1.nextVBO)
    (hcont : d1.contents = d.contents)
    (mapped' : List MappedChunk)
    (hm : mapped' = p.mapped_chunks ∨
      mapped' = p.mapped_chunks ++
        [⟨b, p.used_chunks.length, (fillData p.duplicate_per_vertex xs).length⟩]) :
    PoolInv
      { p with used_chunks := p.used_chunks ++ [b], ready_chunks := ready2,
               mapped_chunks := mapped' }
      { d1 with contents :=
          Function.update d1.contents b (fillData p.duplicate_per_vertex xs) } ∧
    List.Perm
      (poolContents
        { p with used_chunks := p.used_chunks ++ [b], ready_chunks := ready2,
                 mapped_chunks := mapped' }
        { d1 with contents :=
            Function.update d1.contents b (fillData p.duplicate_per_vertex xs) })
      (poolContents p d ++ fillData p.duplicate_per_vertex xs) := by
  have hb_ne : ∀ x ∈ p.used_chunks, x ≠ b := fun x hx he => hbu (he ▸ hx)
  have hold_ok : ∀ (k : Nat) (mck : MappedChunk), p.mapped_chunks[k]? = some mck →
      (p.used_chunks ++ [b])[mck.buffer_index]? = some mck.ptrBuf ∧
      (Function.update d1.contents b (fillData p.duplicate_per_vertex xs)
        mck.ptrBuf).length = mck.size := by
    intro k mck hk
    obtain ⟨hu, hl⟩ := inv.mapped_ok k mck hk
    have hlt : mck.buffer_index < p.used_chunks.length := (List.getElem?_eq_some.mp hu).1
    refine ⟨?_, ?_⟩
    · rw [List.getElem?_append_left hlt]
      exact hu
    · rw [Function.update_noteq (hb_ne _ (List.getElem?_mem hu)), hcont]
      exact hl
  have hclass : ∀ (newc : MappedChunk) (k : Nat) (m : MappedChunk),
      (p.mapped_chunks ++ [newc])[k]? = some m →
      (k < p.mapped_chunks.length ∧ p.mapped_chunks[k]? = some m) ∨
      (k = p.mapped_chunks.length ∧ m = newc) := by
    intro newc k m h
    rw [List.getElem?_append] at h
    split at h
    · exact Or.inl ⟨by assumption, h⟩
    · rename_i hnlt
      obtain ⟨h1, h2⟩ := List.getElem?_eq_some.mp h
      have hk0 : k - p.mapped_chunks.length = 0 := by
        simp at h1
        omega
      rw [hk0] at h
      simp only [List.getElem?_cons_zero, Option.some.injEq] at h
      refine Or.inr ⟨by omega, h.symm⟩
  constructor
  · refine ⟨hnd2, hlt2, ?_, ?_⟩
    · intro k mck hk
      rcases hm with rfl | rfl
      · exact hold_ok k mck hk
      · rcases hclass _ k mck hk with ⟨_, hkold⟩ | ⟨_, rfl⟩
        · exact hold_ok k mck hkold
        · refine ⟨?_, ?_⟩
          · exact List.getElem?_concat_length _ _
          · dsimp only
            rw [Function.update_same]
    · intro k1 k2 m1 m2 h1 h2 hbe
      rcases hm with rfl | rfl
      · exact inv.idx_inj k1 k2 m1 m2 h1 h2 hbe
      · rcases hclass _ k1 m1 h1 with ⟨hk1, h1o⟩ | ⟨hk1, rfl⟩ <;>
          rcases hclass _ k2 m2 h2 with ⟨hk2, h2o⟩ | ⟨hk2, rfl⟩
        · exact inv.idx_inj k1 k2 m1 m2 h1o h2o hbe
        · exfalso
          obtain ⟨hu1, _⟩ := inv.mapped_ok k1 m1 h1o
          have : m1.buffer_index < p.used_chunks.length :=
            (List.getElem?_eq_some.mp hu1).1
          dsimp only at hbe
          omega
        · exfalso
          obtain ⟨hu2, _⟩ := inv.mapped_ok k2 m2 h2o
          have : m2.buffer_index < p.used_chunks.length :=
            (List.getElem?_eq_some.mp hu2).1
          dsimp only at hbe
          omega
        · omega
  · rw [poolContents, poolContents]
    dsimp only
    rw [List.map_append, List.flatten_append]
    have hmap : p.used_chunks.map
        (Function.update d1.contents b (fillData p.duplicate_per_vertex xs)) =
        p.used_chunks.map d.contents := by
      apply List.map_congr_left
      intro x hx
      rw [Function.update_noteq (hb_ne x hx)]
      exact congrFun hcont x
    rw [hmap]
    simp only [List.map_cons, List.map_nil, List.flatten_cons, List.flatten_nil,
      Function.update_same, List.append_nil]
    exact List.Perm.refl _

/-- Writing into a freshly mapped (empty) buffer at offset 0 stores
exactly the written slots. -/
theorem writeAt_nil_zero {α : Type} (ws : List α) :
    writeAt ([] : List α) 0 ws = ws := by
  simp [writeAt]

/-- One `add` call preserves the pool/device invariant, appends the
expanded batch to the written contents up to permutation, and keeps
`duplicate_per_vertex`. -/
theorem instancePool_add_step {α : Type} (p : InstancePool) (d : DeviceState α)
    (xs : List α) (inv : PoolInv p d) :
    PoolInv (p.add xs d).2.1 (p.add xs d).2.2 ∧
    List.Perm (poolContents (p.add xs d).2.1 (p.add xs d).2.2)
      (poolContents p d ++ fillData p.duplicate_per_vertex xs) ∧
    (p.add xs d).2.1.duplicate_per_vertex = p.duplicate_per_vertex := by
  have hEl : (fillData p.duplicate_per_vertex xs).length =
      xs.length * (if p.duplicate_per_vertex then VERTICES_PER_INSTANCE else 1) := by
    rw [fillData_length]
    simp [VERTICES_PER_INSTANCE]
  cases hco : coalesce p.chunk_size
      (xs.length * (if p.duplicate_per_vertex then VERTICES_PER_INSTANCE else 1))
      p.mapped_chunks with
  | some pr =>
    obtain ⟨mc, mapped2⟩ := pr
    obtain ⟨j, hj, hfit, hm2⟩ := coalesce_some_spec _ _ _ _ _ hco
    obtain ⟨hused_j, hlen_j⟩ := inv.mapped_ok j mc hj
    have hjlt : j < p.mapped_chunks.length := (List.getElem?_eq_some.mp hj).1
    have heq : p.add xs d =
        (⟨mc.buffer_index,
          (mc.size + xs.length * (if p.duplicate_per_vertex then VERTICES_PER_INSTANCE else 1)) /
              (if p.duplicate_per_vertex then VERTICES_PER_INSTANCE else 1) - xs.length,
          (mc.size + xs.length * (if p.duplicate_per_vertex then VERTICES_PER_INSTANCE else 1)) /
              (if p.duplicate_per_vertex then VERTICES_PER_INSTANCE else 1),
          p.epoch⟩,
         { p with mapped_chunks := mapped2 },
         { d with contents := (Function.update d.contents mc.ptrBuf
             (d.contents mc.ptrBuf ++ fillData p.duplicate_per_vertex xs)) }) := by
      rw [InstancePool.add]
      dsimp only
      rw [hco]
      dsimp only
      rw [writeMapped, ← hlen_j, writeAt_at_length]
    rw [heq]
    subst hm2
    refine ⟨⟨inv.nodup, inv.lt_next, ?_, ?_⟩, ?_, rfl⟩
    · intro k mck hk
      rw [List.getElem?_set] at hk
      by_cases hjk : j = k
      · rw [if_pos hjk, if_pos hjlt] at hk
        injection hk with hk2
        subst hk2
        refine ⟨hused_j, ?_⟩
        dsimp only
        rw [Function.update_same, List.length_append, hEl, hlen_j]
      · rw [if_neg hjk] at hk
        obtain ⟨hu, hl⟩ := inv.mapped_ok k mck hk
        refine ⟨hu, ?_⟩
        dsimp only
        have hne : mck.ptrBuf ≠ mc.ptrBuf := by
          intro he
          obtain ⟨hlt1, hg1⟩ := List.getElem?_eq_some.mp hu
          obtain ⟨hlt2, hg2⟩ := List.getElem?_eq_some.mp hused_j
          have hund : p.used_chunks.Nodup := (List.nodup_append.mp inv.nodup).1
          have hbe : mck.buffer_index = mc.buffer_index := by
            have hgg : p.used_chunks[mck.buffer_index] = p.used_chunks[mc.buffer_index] := by
              rw [hg1, hg2, he]
            exact (hund.getElem_inj_iff).mp hgg
          exact hjk (inv.idx_inj j k mc mck hj hk hbe.symm)
        rw [Function.update_noteq hne]
        exact hl
    · intro k1 k2 m1 m2 h1 h2 hbe
      rw [List.getElem?_set] at h1 h2
      have hred : ∀ k m, (if j = k then (if j < p.mapped_chunks.length
            then some (⟨mc.ptrBuf, mc.buffer_index, mc.size + xs.length *
              (if p.duplicate_per_vertex then VERTICES_PER_INSTANCE else 1)⟩ : MappedChunk)
            else none)
          else p.mapped_chunks[k]?) = some m →
          ∃ m', p.mapped_chunks[k]? = some m' ∧ m'.buffer_index = m.buffer_index := by
        intro k m h
        by_cases hjk : j = k
        · rw [if_pos hjk, if_pos hjlt] at h
          injection h with h2
          subst h2
          exact ⟨mc, hjk ▸ hj, rfl⟩
        · rw [if_neg hjk] at h
          exact ⟨m, h, rfl⟩
      obtain ⟨m1', hm1', hb1⟩ := hred k1 m1 h1
      obtain ⟨m2', hm2', hb2⟩ := hred k2 m2 h2
      exact inv.idx_inj k1 k2 m1' m2' hm1' hm2' (by rw [hb1, hb2, hbe])
    · have hbmem : mc.ptrBuf ∈ p.used_chunks := List.getElem?_mem hused_j
      have hund : p.used_chunks.Nodup := (List.nodup_append.mp inv.nodup).1
      rw [poolContents, poolContents]
      dsimp only
      exact flatten_map_update_perm p.used_chunks d.contents mc.ptrBuf
        (fillData p.duplicate_per_vertex xs) hund hbmem
  | none =>
    obtain ⟨⟨b, ready2, d1⟩, hpr⟩ : ∃ t, popReady p d = t := ⟨_, rfl⟩
    obtain ⟨hbu, hnd2, hlt2, hcont⟩ := popReady_facts p d inv b ready2 d1 hpr
    by_cases h1 : p.chunk_size ≤ xs.length *
        (if p.duplicate_per_vertex then VERTICES_PER_INSTANCE else 1) ∧
        p.duplicate_per_vertex = false
    · have heq : p.add xs d =
          (⟨p.used_chunks.length, 0, xs.length, p.epoch⟩,
           { p with used_chunks := p.used_chunks ++ [b], ready_chunks := ready2 },
           { d1 with contents := (Function.update d1.contents b
               (fillData p.duplicate_per_vertex xs)) }) := by
        rw [InstancePool.add]
        dsimp only
        rw [hco]
        dsimp only
        rw [hpr]
        dsimp only
        rw [if_pos h1, updateVboData, h1.2, fillData_false]
      rw [heq]
      obtain ⟨hi, hp⟩ := add_alloc_step p d xs inv b ready2 d1 hbu hnd2 hlt2 hcont
        p.mapped_chunks (Or.inl rfl)
      exact ⟨hi, hp, rfl⟩
    · by_cases h2 : p.chunk_size ≤ xs.length *
          (if p.duplicate_per_vertex then VERTICES_PER_INSTANCE else 1)
      · have heq : p.add xs d =
            (⟨p.used_chunks.length, 0, xs.length, p.epoch⟩,
             { p with used_chunks := p.used_chunks ++ [b], ready_chunks := ready2 },
             { d1 with contents := (Function.update d1.contents b
                 (fillData p.duplicate_per_vertex xs)) }) := by
          rw [InstancePool.add]
          dsimp only
          rw [hco]
          dsimp only
          rw [hpr]
          dsimp only
          rw [if_neg h1, if_pos h2, writeMapped, initializeMappedVertexBuffer]
          dsimp only
          rw [Function.update_same, writeAt_nil_zero, Function.update_idem]
        rw [heq]
        obtain ⟨hi, hp⟩ := add_alloc_step p d xs inv b ready2 d1 hbu hnd2 hlt2 hcont
          p.mapped_chunks (Or.inl rfl)
        exact ⟨hi, hp, rfl⟩
      · have heq : p.add xs d =
            (⟨p.used_chunks.length, 0, xs.length, p.epoch⟩,
             { p with used_chunks := p.used_chunks ++ [b], ready_chunks := ready2,
                      mapped_chunks := p.mapped_chunks ++
                        [⟨b, p.used_chunks.length,
                          (fillData p.duplicate_per_vertex xs).length⟩] },
             { d1 with contents := (Function.update d1.contents b
                 (fillData p.duplicate_per_vertex xs)) }) := by
          rw [InstancePool.add]
          dsimp only
          rw [hco]
          dsimp only
          rw [hpr]
          dsimp only
          rw [if_neg h1, if_neg h2, writeMapped, initializeMappedVertexBuffer]
          dsimp only
          rw [Function.update_same, writeAt_nil_zero, Function.update_idem, hEl]
        rw [heq]
        obtain ⟨hi, hp⟩ := add_alloc_step p d xs inv b ready2 d1 hbu hnd2 hlt2 hcont
          (p.mapped_chunks ++
            [⟨b, p.used_chunks.length, (fillData p.duplicate_per_vertex xs).length⟩])
          (Or.inr rfl)
        exact ⟨hi, hp, rfl⟩

/-- Folding `add` over a batch list preserves the invariant and, up to
permutation, appends the concatenation of the expanded batches. -/
theorem addAll_perm {α : Type} (adds : List (List α)) (p : InstancePool)
    (d : DeviceState α) (inv : PoolInv p d) :
    PoolInv (addAll p d adds).1 (addAll p d adds).2 ∧
    List.Perm (poolContents (addAll p d adds).1 (addAll p d adds).2)
      (poolContents p d ++ (adds.map (fillData p.duplicate_per_vertex)).flatten) := by
  induction adds generalizing p d with
  | nil =>
    refine ⟨inv, ?_⟩
    simp [addAll]
  | cons xs rest ih =>
    obtain ⟨inv1, hp1, hdup⟩ := instancePool_add_step p d xs inv
    obtain ⟨inv2, hp2⟩ := ih (p.add xs d).2.1 (p.add xs d).2.2 inv1
    rw [hdup] at hp2
    constructor
    · rw [addAll]
      exact inv2
    · rw [addAll]
      rw [List.map_cons, List.flatten_cons, ← List.append_assoc]
      exact hp2.trans (hp1.append_right _)

/-! ### C1: the written slots of a batch sequence -/

/-- C1 counterexample: starting from a freshly reset pool with
`chunk_size = 4` and no duplication, the batches `[1,2,3]`, `[4,5]`,
`[6]` (all non-empty) produce the buffer-order slot concatenation
`[1,2,3,6,4,5]` — the third batch is coalesced back into the first
chunk — which differs from `expand([1,2,3]) ++ expand([4,5]) ++
expand([6]) = [1,2,3,4,5,6]`. -/
theorem instancePool_add_sequence_order_cex :
    (∀ xs ∈ [[1, 2, 3], [4, 5], [6]], xs ≠ ([] : List Nat)) ∧
    poolContents
        (addAll ⟨4, [], [], [], .hintStream, false, 0⟩
          (⟨0, fun _ => []⟩ : DeviceState Nat) [[1, 2, 3], [4, 5], [6]]).1
        (addAll ⟨4, [], [], [], .hintStream, false, 0⟩
          (⟨0, fun _ => []⟩ : DeviceState Nat) [[1, 2, 3], [4, 5], [6]]).2 =
      [1, 2, 3, 6, 4, 5] ∧
    ([[1, 2, 3], [4, 5], [6]].map (fillData false)).flatten = [1, 2, 3, 4, 5, 6] ∧
    poolContents
        (addAll ⟨4, [], [], [], .hintStream, false, 0⟩
          (⟨0, fun _ => []⟩ : DeviceState Nat) [[1, 2, 3], [4, 5], [6]]).1
        (addAll ⟨4, [], [], [], .hintStream, false, 0⟩
          (⟨0, fun _ => []⟩ : DeviceState Nat) [[1, 2, 3], [4, 5], [6]]).2 ≠
      ([[1, 2, 3], [4, 5], [6]].map (fillData false)).flatten := by
  refine ⟨by decide, by decide, by decide, by decide⟩

/-- C1 amended: for every sequence of non-empty batches added between a
reset (empty `used_chunks` and `mapped_chunks`) and the following
finish, the concatenation of the written instance slots in buffer order
is a permutation of `expand(xs₁) ++ … ++ expand(xsk)` (each batch lands
contiguously, but a later batch may be coalesced into an earlier,
partially filled chunk). -/
theorem instancePool_add_sequence_perm {α : Type} (adds : List (List α))
    (p : InstancePool) (d : DeviceState α) (inv : PoolInv p d)
    (hu : p.used_chunks = []) (_hm : p.mapped_chunks = [])
    (_hne : ∀ xs ∈ adds, xs ≠ []) :
    List.Perm (poolContents (addAll p d adds).1 (addAll p d adds).2)
      ((adds.map (fillData p.duplicate_per_vertex)).flatten) := by
  have h := (addAll_perm adds p d inv).2
  have hz : poolContents p d = [] := by
    rw [poolContents, hu]
    rfl
  rwa [hz, List.nil_append] at h

theorem instancePool_add_sequence_perm_witness :
    List.Perm
      (poolContents
        (addAll ⟨4, [], [], [], .hintStream, false, 0⟩
          (⟨0, fun _ => []⟩ : DeviceState Nat) [[1, 2], [3]]).1
        (addAll ⟨4, [], [], [], .hintStream, false, 0⟩
          (⟨0, fun _ => []⟩ : DeviceState Nat) [[1, 2], [3]]).2)
      (([[1, 2], [3]].map (fillData false)).flatten) :=
  instancePool_add_sequence_perm [[1, 2], [3]] ⟨4, [], [], [], .hintStream, false, 0⟩
    (⟨0, fun _ => []⟩ : DeviceState Nat)
    ⟨by simp, by simp, by intro j mc h; simp at h, by intro j k mcj mck h; simp at h⟩
    rfl rfl (by decide)

/-! ### C6: `add` with an empty slice -/

/-- C6 counterexample: with a partially filled mapped chunk, an empty
`add` coalesces into it — the returned range targets the existing
buffer index `0` (not the fresh index `1`) and its empty `sub_range` is
`1..1`, not `0..0`. -/
theorem instancePool_add_empty_cex :
    ((addAll ⟨8, [], [], [], .hintStream, false, 0⟩
        (⟨0, fun _ => []⟩ : DeviceState Nat) [[42]]).1.used_chunks.length = 1) ∧
    ((addAll ⟨8, [], [], [], .hintStream, false, 0⟩
        (⟨0, fun _ => []⟩ : DeviceState Nat) [[42]]).1.add ([] : List Nat)
      (addAll ⟨8, [], [], [], .hintStream, false, 0⟩
        (⟨0, fun _ => []⟩ : DeviceState Nat) [[42]]).2).1.buffer_index = 0 ∧
    ((addAll ⟨8, [], [], [], .hintStream, false, 0⟩
        (⟨0, fun _ => []⟩ : DeviceState Nat) [[42]]).1.add ([] : List Nat)
      (addAll ⟨8, [], [], [], .hintStream, false, 0⟩
        (⟨0, fun _ => []⟩ : DeviceState Nat) [[42]]).2).1.sub_start = 1 ∧
    ((addAll ⟨8, [], [], [], .hintStream, false, 0⟩
        (⟨0, fun _ => []⟩ : DeviceState Nat) [[42]]).1.add ([] : List Nat)
      (addAll ⟨8, [], [], [], .hintStream, false, 0⟩
        (⟨0, fun _ => []⟩ : DeviceState Nat) [[42]]).2).1.sub_end = 1 := by
  refine ⟨by decide, by decide, by decide, by decide⟩

/-- C6 amended: an `add` with an empty slice writes no instance slots —
the buffer-order concatenation of written slots is unchanged — and
returns an empty range (`sub_start = sub_end`); only when no chunk is
mapped does it target a fresh buffer index (`used_chunks.length`) with
`sub_range = 0..0`. -/
theorem instancePool_add_empty {α : Type} (p : InstancePool) (d : DeviceState α)
    (inv : PoolInv p d) :
    (p.add ([] : List α) d).1.sub_start = (p.add ([] : List α) d).1.sub_end ∧
    poolContents (p.add ([] : List α) d).2.1 (p.add ([] : List α) d).2.2 =
      poolContents p d ∧
    (p.mapped_chunks = [] →
      (p.add ([] : List α) d).1.buffer_index = p.used_chunks.length ∧
      (p.add ([] : List α) d).1.sub_start = 0 ∧
      (p.add ([] : List α) d).1.sub_end = 0) := by
  cases hco : coalesce p.chunk_size
      (([] : List α).length * (if p.duplicate_per_vertex then VERTICES_PER_INSTANCE else 1))
      p.mapped_chunks with
  | some pr =>
    obtain ⟨mc, mapped2⟩ := pr
    obtain ⟨j, hj, hfit, hm2⟩ := coalesce_some_spec _ _ _ _ _ hco
    have hdev : writeMapped d mc.ptrBuf mc.size
        (fillData p.duplicate_per_vertex ([] : List α)) = d := by
      rw [fillData_nil, writeMapped, writeAt_empty_write, Function.update_eq_self]
    have heq : p.add ([] : List α) d =
        (⟨mc.buffer_index,
          (mc.size + ([] : List α).length *
              (if p.duplicate_per_vertex then VERTICES_PER_INSTANCE else 1)) /
              (if p.duplicate_per_vertex then VERTICES_PER_INSTANCE else 1) -
            ([] : List α).length,
          (mc.size + ([] : List α).length *
              (if p.duplicate_per_vertex then VERTICES_PER_INSTANCE else 1)) /
              (if p.duplicate_per_vertex then VERTICES_PER_INSTANCE else 1),
          p.epoch⟩,
         { p with mapped_chunks := mapped2 },
         writeMapped d mc.ptrBuf mc.size
           (fillData p.duplicate_per_vertex ([] : List α))) := by
      rw [InstancePool.add]
      dsimp only
      rw [hco]
    rw [heq]
    refine ⟨by simp, ?_, ?_⟩
    · rw [hdev]
      rfl
    · intro hmem
      rw [hmem] at hj
      simp at hj
  | none =>
    obtain ⟨⟨b, ready2, d1⟩, hpr⟩ : ∃ t, popReady p d = t := ⟨_, rfl⟩
    obtain ⟨hbu, hnd2, hlt2, hcont⟩ := popReady_facts p d inv b ready2 d1 hpr
    have hb_ne : ∀ x ∈ p.used_chunks, x ≠ b := fun x hx he => hbu (he ▸ hx)
    have hcontents : ∀ M : List MappedChunk,
        poolContents
          { p with used_chunks := p.used_chunks ++ [b], ready_chunks := ready2,
                   mapped_chunks := M }
          { d1 with contents := (Function.update d1.contents b
              (fillData p.duplicate_per_vertex ([] : List α))) } = poolContents p d := by
      intro M
      rw [poolContents, poolContents]
      dsimp only
      rw [List.map_append, List.flatten_append]
      have hmap : p.used_chunks.map (Function.update d1.contents b
          (fillData p.duplicate_per_vertex ([] : List α))) =
          p.used_chunks.map d.contents := by
        apply List.map_congr_left
        intro x hx
        rw [Function.update_noteq (hb_ne x hx)]
        exact congrFun hcont x
      rw [hmap]
      simp [fillData_nil]
    by_cases h1 : p.chunk_size ≤ ([] : List α).length *
        (if p.duplicate_per_vertex then VERTICES_PER_INSTANCE else 1) ∧
        p.duplicate_per_vertex = false
    · have heq : p.add ([] : List α) d =
          (⟨p.used_chunks.length, 0, ([] : List α).length, p.epoch⟩,
           { p with used_chunks := p.used_chunks ++ [b], ready_chunks := ready2 },
           { d1 with contents := (Function.update d1.contents b
               (fillData p.duplicate_per_vertex ([] : List α))) }) := by
        rw [InstancePool.add]
        dsimp only
        rw [hco]
        dsimp only
        rw [hpr]
        dsimp only
        rw [if_pos h1, updateVboData, h1.2, fillData_false]
      rw [heq]
      exact ⟨rfl, hcontents _, fun _ => ⟨rfl, rfl, rfl⟩⟩
    · by_cases h2 : p.chunk_size ≤ ([] : List α).length *
          (if p.duplicate_per_vertex then VERTICES_PER_INSTANCE else 1)
      · have heq : p.add ([] : List α) d =
            (⟨p.used_chunks.length, 0, ([] : List α).length, p.epoch⟩,
             { p with used_chunks := p.used_chunks ++ [b], ready_chunks := ready2 },
             { d1 with contents := (Function.update d1.contents b
                 (fillData p.duplicate_per_vertex ([] : List α))) }) := by
          rw [InstancePool.add]
          dsimp only
          rw [hco]
          dsimp only
          rw [hpr]
          dsimp only
          rw [if_neg h1, if_pos h2, writeMapped, initializeMappedVertexBuffer]
          dsimp only
          rw [Function.update_same, writeAt_nil_zero, Function.update_idem]
        rw [heq]
        exact ⟨rfl, hcontents _, fun _ => ⟨rfl, rfl, rfl⟩⟩
      · have hEl : (fillData p.duplicate_per_vertex ([] : List α)).length =
            ([] : List α).length *
              (if p.duplicate_per_vertex then VERTICES_PER_INSTANCE else 1) := by
          rw [fillData_length]
          simp [VERTICES_PER_INSTANCE]
        have heq : p.add ([] : List α) d =
            (⟨p.used_chunks.length, 0, ([] : List α).length, p.epoch⟩,
             { p with used_chunks := p.used_chunks ++ [b], ready_chunks := ready2,
                      mapped_chunks := p.mapped_chunks ++
                        [⟨b, p.used_chunks.length,
                          (fillData p.duplicate_per_vertex ([] : List α)).length⟩] },
             { d1 with contents := (Function.update d1.contents b
                 (fillData p.duplicate_per_vertex ([] : List α))) }) := by
          rw [InstancePool.add]
          dsimp only
          rw [hco]
          dsimp only
          rw [hpr]
          dsimp only
          rw [if_neg h1, if_neg h2, writeMapped, initializeMappedVertexBuffer]
          dsimp only
          rw [Function.update_same, writeAt_nil_zero, Function.update_idem, hEl]
        rw [heq]
        exact ⟨rfl, hcontents _, fun _ => ⟨rfl, rfl, rfl⟩⟩

theorem instancePool_add_empty_witness :
    ((InstancePool.add ⟨8, [], [0], [], .hintStream, false, 3⟩ ([] : List Nat)
        (⟨1, fun _ => [7]⟩ : DeviceState Nat)).1.sub_start =
      (InstancePool.add ⟨8, [], [0], [], .hintStream, false, 3⟩ ([] : List Nat)
        (⟨1, fun _ => [7]⟩ : DeviceState Nat)).1.sub_end) ∧
    poolContents
        (InstancePool.add ⟨8, [], [0], [], .hintStream, false, 3⟩ ([] : List Nat)
          (⟨1, fun _ => [7]⟩ : DeviceState Nat)).2.1
        (InstancePool.add ⟨8, [], [0], [], .hintStream, false, 3⟩ ([] : List Nat)
          (⟨1, fun _ => [7]⟩ : DeviceState Nat)).2.2 =
      poolContents ⟨8, [], [0], [], .hintStream, false, 3⟩
        (⟨1, fun _ => [7]⟩ : DeviceState Nat) ∧
    ((InstancePool.add ⟨8, [], [0], [], .hintStream, false, 3⟩ ([] : List Nat)
        (⟨1, fun _ => [7]⟩ : DeviceState Nat)).1.buffer_index = 1 ∧
      (InstancePool.add ⟨8, [], [0], [], .hintStream, false, 3⟩ ([] : List Nat)
        (⟨1, fun _ => [7]⟩ : DeviceState Nat)).1.sub_start = 0 ∧
      (InstancePool.add ⟨8, [], [0], [], .hintStream, false, 3⟩ ([] : List Nat)
        (⟨1, fun _ => [7]⟩ : DeviceState Nat)).1.sub_end = 0) := by
  have h := instancePool_add_empty ⟨8, [], [0], [], .hintStream, false, 3⟩
    (⟨1, fun _ => [7]⟩ : DeviceState Nat)
    ⟨by simp, by simp +decide, by intro j mc hj; simp at hj,
     by intro j k mcj mck hj; simp at hj⟩
  exact ⟨h.1, h.2.1, h.2.2 rfl⟩
